import Mathlib

/-!
Shallow embedding of `src/label_studio/data_export/api.py` (the REST layer of
label-studio's data-export app): the synchronous export endpoint, the legacy
export-file listing, the nginx auth-check endpoint, and the export-job
CRUD/download endpoints, together with theorems about their behaviour.

Strings are embedded as `List Char` so that every operation is a structural
recursion the kernel can evaluate.  Machinery the views call that lives
outside the shown file (`bool_from_request`, `batch`,
`DataExport.generate_export_file`, Python's `int(...)` and `str.replace`,
the ORM) is embedded explicitly below; each such definition says where it
comes from.
-/

namespace LabelStudio.DataExport

/-- Embedded strings: Python/Django text values as lists of characters. -/
abbrev Str := List Char

/-! ## Python built-in string/int behaviour used by the views -/

/-- Strip leading and trailing whitespace, as Python's `int(...)` does to its
string argument. -/
def stripWs (cs : Str) : Str :=
  ((cs.dropWhile Char.isWhitespace).reverse.dropWhile Char.isWhitespace).reverse

/-- Digit-run parser behind Python's `int`: a nonempty run of decimal digits
in which single underscores may separate digits.  `lastWasDigit` tracks
whether an underscore may come next. -/
def pyDigitsGo : Nat → Bool → Str → Option Nat
  | acc, true, [] => some acc
  | _, false, [] => none
  | acc, lastWasDigit, c :: cs =>
    if c.isDigit then pyDigitsGo (acc * 10 + (c.toNat - 48)) true cs
    else if c == '_' then
      if lastWasDigit then pyDigitsGo acc false cs else none
    else none

def pyDigits (cs : Str) : Option Nat :=
  pyDigitsGo 0 false cs

/-- Python's `int(s)` for a string argument: surrounding whitespace is
stripped, an optional sign precedes the digits.  `none` = `ValueError`. -/
def pyInt (s : Str) : Option Int :=
  match stripWs s with
  | '+' :: rest => (pyDigits rest).map Int.ofNat
  | '-' :: rest => (pyDigits rest).map (fun n => -(n : Int))
  | rest => (pyDigits rest).map Int.ofNat

/-- Python's `s.split(sep)[0]` for a one-character separator: the text before
the first occurrence of `sep` (the whole string when `sep` is absent). -/
def takeUntilChar (sep : Char) : Str → Str
  | [] => []
  | c :: cs => if c == sep then [] else c :: takeUntilChar sep cs

/-- Python's `s.split(sep)` for a one-character separator.  `acc` holds the
current field, reversed. -/
def splitOnCharAux (sep : Char) : Str → Str → List Str
  | acc, [] => [acc.reverse]
  | acc, c :: cs =>
    if c == sep then acc.reverse :: splitOnCharAux sep [] cs
    else splitOnCharAux sep (c :: acc) cs

def splitOnChar (sep : Char) (s : Str) : List Str :=
  splitOnCharAux sep [] s

/-- Python's `s.replace(pat, repl)`: every non-overlapping occurrence of
`pat`, scanned left to right, is replaced.  The fuel argument (the length of
the remaining input) makes the recursion structural. -/
def replaceAllAux (pat repl : Str) : Nat → Str → Str
  | 0, s => s
  | _, [] => []
  | fuel + 1, c :: cs =>
    if pat.isPrefixOf (c :: cs) then
      repl ++ replaceAllAux pat repl fuel ((c :: cs).drop pat.length)
    else
      c :: replaceAllAux pat repl fuel cs

def replaceAll (pat repl s : Str) : Str :=
  replaceAllAux pat repl s.length s

/-- Python's `s.endswith(suffix)`. -/
def strEndsWith (s suffix : Str) : Bool :=
  suffix.isSuffixOf s

/-- Decimal digits of a natural number, most significant first; the fuel
argument makes the recursion structural (`fuel ≥ n` suffices). -/
def natDigitsAux : Nat → Nat → Str
  | 0, _ => []
  | fuel + 1, n =>
    if n = 0 then [] else natDigitsAux fuel (n / 10) ++ [Char.ofNat (48 + n % 10)]

/-- Python's `str(n)` for a natural number. -/
def natToStr (n : Nat) : Str :=
  if n = 0 then ['0'] else natDigitsAux (n + 1) n

/-- Python's `str(i)` for an integer. -/
def intToStr (i : Int) : Str :=
  if i < 0 then '-' :: natToStr i.natAbs else natToStr i.toNat

/-- Lexicographic comparison by code point, as Python compares strings. -/
def strLe : Str → Str → Bool
  | [], _ => true
  | _ :: _, [] => false
  | a :: as, b :: bs => if a == b then strLe as bs else decide (a.toNat < b.toNat)

/-- Insert into a sorted list, keeping it sorted with respect to `le`. -/
def insertSorted (le : α → α → Bool) (x : α) : List α → List α
  | [] => [x]
  | y :: ys => if le x y then x :: y :: ys else y :: insertSorted le x ys

/-- Insertion sort; embeds Python's `sorted` and the ORM's `order_by` (the
properties proved below depend only on membership and sortedness). -/
def insertionSort (le : α → α → Bool) : List α → List α
  | [] => []
  | x :: xs => insertSorted le x (insertionSort le xs)

/-! ## Query parameters (Django `QueryDict`)

A request's GET parameters are a multi-valued mapping; we model them as an
association list.  `QueryDict.get` returns the LAST value for a key,
`getlist` all values, `in` tests key membership. -/

abbrev Params := List (Str × Str)

/-- Django's `request.GET.get(key)`: the last value bound to `key`, if any. -/
def qget (ps : Params) (key : Str) : Option Str :=
  (ps.reverse.find? (fun p => p.1 == key)).map (fun p => p.2)

/-- Django's `request.GET.get(key, default)`. -/
def qgetD (ps : Params) (key : Str) (default : Str) : Str :=
  (qget ps key).getD default

/-- Membership test `key in request.GET`. -/
def qcontains (ps : Params) (key : Str) : Bool :=
  (qget ps key).isSome

/-- Django's `request.GET.getlist(key)`: every value bound to `key`. -/
def qgetlist (ps : Params) (key : Str) : List Str :=
  (ps.filter (fun p => p.1 == key)).map (fun p => p.2)

/-! ## Boolean request parameters -/

/-- Modelled from the spec: the string-to-boolean cast used by
`bool_from_request` (from `core.utils.common`, imported by the view file but
not part of the shown source).  Lower-cased truthy spellings parse as
`true`, falsy spellings as `false`; anything else is not a parseable
boolean value. -/
def parseBoolStr (s : Str) : Option Bool :=
  let l := s.map Char.toLower
  if l == "true".data || l == "yes".data || l == "on".data || l == "1".data then
    some true
  else if l == "false".data || l == "no".data || l == "not".data
      || l == "off".data || l == "0".data then
    some false
  else none

/-- Modelled from the spec: `bool_from_request(params, key, default)` returns
the parsed boolean value of `params[key]`, falling back to `default` when
the key is absent or the value is not a parseable boolean value. -/
def boolFromRequest (ps : Params) (key : Str) (default : Bool) : Bool :=
  match qget ps key with
  | none => default
  | some s => (parseBoolStr s).getD default

/-! ## HTTP responses -/

/-- Observable parts of a Django `HttpResponse`/DRF `Response` built by
these views.  `streamed` is `some s` when a file is streamed in the body
(`s` standing for the streamed content), `none` for plain/JSON bodies. -/
structure HttpResp where
  status : Nat
  body : Str
  contentType : Option Str
  headers : List (Str × Str)
  streamed : Option Str
  deriving Repr, DecidableEq

/-- Plain `HttpResponse(text, status=...)`: no file streamed. -/
def plainResp (status : Nat) (body : Str) : HttpResp :=
  { status := status, body := body, contentType := none, headers := [], streamed := none }

/-! ## `ExportDownloadAPI.get`

The view has already resolved `export_pk` to an `Export` instance
(`self.get_object()`, see the queryset definitions further down); we embed
the handler body acting on that instance.  `Export.file` and
`Export.convert_file` live on the model outside the shown file, so the
instance carries them as data: `file` is the stored file handle and
`convertFile t` the result of converting to format `t` (`none` = no file). -/

inductive ExportStatus where
  | created
  | in_progress
  | completed
  | failed
  deriving Repr, DecidableEq

structure FileObj where
  name : Str
  deriving Repr, DecidableEq

structure ExportInstance where
  status : ExportStatus
  file : Option FileObj
  convertFile : Str → Option FileObj

/-- Body of `ExportDownloadAPI.get` (lines 440–459) after the
`get_object()` lookup. -/
def exportDownloadGet (inst : ExportInstance) (ps : Params) : HttpResp :=
  let export_type := qget ps "exportType".data
  if inst.status ≠ ExportStatus.completed then
    plainResp 404 "Export is not completed".data
  else
    let file_ :=
      match export_type with
      | none => inst.file
      | some t => inst.convertFile t
    match file_ with
    | none => plainResp 404 "Can't get file".data
    | some f =>
      let ext := (splitOnChar '.' f.name).getLastD []
      { status := 200
        body := []
        contentType := some ("application/".data ++ ext)
        headers := [("Content-Disposition".data,
                      "attachment; filename=\"".data ++ f.name ++ "\"".data),
                    ("filename".data, f.name)]
        streamed := some f.name }

/-! ## `ExportAPI.get` (synchronous export)

Tasks live in the ORM; we embed the task table as a list of rows.  A task
row carries its project foreign key and the ids of its annotations (the
reverse `annotations` relation). -/

structure Task where
  id : Int
  project : Int
  annotations : List Int
  deriving Repr, DecidableEq

/-- Modelled from the spec: `batch(iterable, n)` (from `core.utils.common`,
not part of the shown source) yields consecutive slices of length `n`, the
last possibly shorter — "batches serialization (batch size 1000)".  The
fuel argument (the length of the list) makes the recursion structural. -/
def batchAux (n : Nat) : Nat → List α → List (List α)
  | 0, _ => []
  | _, [] => []
  | fuel + 1, x :: xs => (x :: xs).take n :: batchAux n fuel ((x :: xs).drop n)

def batch (l : List α) (n : Nat) : List (List α) :=
  if n = 0 then [] else batchAux n l.length l

/-- SQL `DISTINCT` over task rows: keep the first occurrence of each task
id.  The fuel argument makes the recursion structural. -/
def distinctByIdAux : Nat → List Task → List Task
  | 0, _ => []
  | _, [] => []
  | fuel + 1, t :: ts => t :: distinctByIdAux fuel (ts.filter (fun u => u.id ≠ t.id))

def distinctById (l : List Task) : List Task :=
  distinctByIdAux l.length l

/-- Embedding of `query.filter(annotations__isnull=False).distinct()`: the
inner join against the annotations table repeats each task row once per
annotation and drops unannotated tasks; `distinct()` collapses the
duplicates again. -/
def annotationsNotNullDistinct (q : List Task) : List Task :=
  distinctById (q.flatMap (fun t => t.annotations.map (fun _ => t)))

/-- Lines 147–151: `request.GET.get('exportType', 'JSON') if 'exportType' in
request.GET else request.GET.get('export_type', 'JSON')`. -/
def exportTypeFromParams (ps : Params) : Str :=
  if qcontains ps "exportType".data then qgetD ps "exportType".data "JSON".data
  else qgetD ps "export_type".data "JSON".data

/-- Lines 154–157: `download_resources` from the query string when the key
is present, else the `CONVERTER_DOWNLOAD_RESOURCES` setting. -/
def downloadResourcesFromParams (converterDownloadResources : Bool) (ps : Params) : Bool :=
  if qcontains ps "download_resources".data then
    boolFromRequest ps "download_resources".data true
  else converterDownloadResources

/-- Lines 152–173 of `ExportAPI.get`: select the project's tasks, restrict
to `ids[]` when that list is nonempty, restrict to annotated tasks unless
`download_all_tasks` parses as true, then serialize the resulting id list
in batches of 1000 against the same query.  `none` embeds the ORM's
`ValueError` on a non-integer member of `ids[]`. -/
def exportApiTasks (db : List Task) (projectPk : Int) (ps : Params) : Option (List Task) :=
  let only_finished := !(boolFromRequest ps "download_all_tasks".data false)
  let tasks_ids := qgetlist ps "ids[]".data
  match tasks_ids.mapM pyInt with
  | none => none
  | some idInts =>
    let tasks := db.filter (fun t => t.project == projectPk)
    let tasks1 := if !tasks_ids.isEmpty then tasks.filter (fun t => t.id ∈ idInts) else tasks
    let query := if only_finished then annotationsNotNullDistinct tasks1 else tasks1
    let task_ids := query.map Task.id
    some ((batch task_ids 1000).flatMap
      (fun chunk => query.filter (fun t => t.id ∈ chunk)))

/-- Modelled from the spec: `DataExport.generate_export_file` (on the model,
outside the shown source) returns `(stream, content_type, filename)`. -/
structure FileGenResult where
  stream : Str
  contentType : Str
  filename : Str
  deriving Repr, DecidableEq

/-- Embeds `ExportAPI.get`, parametric in the file generator: serialize the
selected tasks, generate the export file and wrap it in a streaming
response with `Content-Disposition` and `filename` headers (lines
176–183). -/
def exportApiGet (db : List Task) (projectPk : Int) (converterDownloadResources : Bool)
    (gen : List Task → Str → Bool → FileGenResult) (ps : Params) : Option HttpResp :=
  let export_type := exportTypeFromParams ps
  let download_resources := downloadResourcesFromParams converterDownloadResources ps
  match exportApiTasks db projectPk ps with
  | none => none
  | some tasks =>
    let res := gen tasks export_type download_resources
    some { status := 200
           body := []
           contentType := some res.contentType
           headers := [("Content-Disposition".data,
                         "attachment; filename=\"".data ++ res.filename ++ "\"".data),
                       ("filename".data, res.filename)]
           streamed := some res.stream }

/-! ## `ProjectExportFiles.get` (legacy export-file listing)

The call `os.listdir(settings.EXPORT_DIR)` is embedded as the list of
directory entry names; `kwargs['pk']` is the integer project id from the
URL path. -/

/-- Loop condition of lines 210–213: an entry is kept when it ends in
`.json`, does not end in `-info.json`, and the text before its first `-`
equals `str(pk)`. -/
def exportFileQualifies (pk : Int) (name : Str) : Bool :=
  strEndsWith name ".json".data && !(strEndsWith name "-info.json".data)
    && (takeUntilChar '-' name == intToStr pk)

/-- Lines 209–216: collect `EXPORT_URL_ROOT + name` for every qualifying
directory entry, then `sorted(paths)[::-1]`. -/
def projectExportFilesUrls (pk : Int) (exportUrlRoot : Str)
    (dirEntries : List Str) : List Str :=
  let paths := (dirEntries.filter (exportFileQualifies pk)).map
    (fun name => exportUrlRoot ++ name)
  (insertionSort strLe paths).reverse

/-- One `name`/`url` item of the response body (line 216).  The expression
`p.split('/')[2]` raises `IndexError` when the URL has fewer than three
`/`-separated fields; the model returns the empty string there. -/
structure ExportFileItem where
  name : Str
  url : Str
  deriving Repr, DecidableEq

def projectExportFilesItems (pk : Int) (exportUrlRoot : Str)
    (dirEntries : List Str) : List ExportFileItem :=
  (projectExportFilesUrls pk exportUrlRoot dirEntries).map
    (fun p => { name := takeUntilChar '.' ((splitOnChar '/' p).getD 2 []), url := p })

/-! ## `ProjectExportFilesAuthCheck.get`

The handler reads `X-Original-URI`, strips every `/export/` occurrence,
takes the text before the first `-` and parses it with `int`.  A parse
failure is a 422; otherwise `get_object_or_404` against the projects of the
user's active organization answers 200, or raises `Http404` — surfaced by
the framework as a 404 response — when no such project exists. -/

/-- Lines 230–231: the project-id text extracted from the original URI. -/
def authCheckProjectId (originalUri : Str) : Str :=
  takeUntilChar '-' (replaceAll "/export/".data [] originalUri)

def projectExportFilesAuthCheck (orgProjectPks : List Int) (originalUri : Str) : HttpResp :=
  match pyInt (authCheckProjectId originalUri) with
  | none => plainResp 422 "Incorrect filename in export".data
  | some pk =>
    if pk ∈ orgProjectPks then plainResp 200 "auth ok".data
    else plainResp 404 []

/-! ## Export-job endpoints: querysets and `perform_create`

An `Export` row carries its primary key, its project foreign key, its
creator and its creation time.  `Project.objects.for_user(user)` is
embedded as the list of project pks visible to the requesting user;
`_get_project` 404s when the path pk is not among them. -/

structure ExportRec where
  id : Int
  project : Int
  createdBy : Int
  createdAt : Nat
  status : ExportStatus
  deriving Repr, DecidableEq

/-- Class attribute `ExportListAPI.queryset =
Export.objects.all().order_by('-created_at')`: all rows, newest first
(descending `created_at`). -/
def exportListBaseQueryset (allExports : List ExportRec) : List ExportRec :=
  insertionSort (fun a b => decide (b.createdAt ≤ a.createdAt)) allExports

/-- Shared `_get_project`: resolve the path `pk` against the user's
projects or fail with the framework's 404. -/
def getProjectForUser (userProjectPks : List Int) (pathPk : Int) : Except Nat Int :=
  if pathPk ∈ userProjectPks then Except.ok pathPk else Except.error 404

/-- Method `ExportListAPI.get_queryset` (lines 313–315): the ordered base
queryset restricted to the path project. -/
def exportListGetQueryset (userProjectPks : List Int) (pathPk : Int)
    (allExports : List ExportRec) : Except Nat (List ExportRec) :=
  match getProjectForUser userProjectPks pathPk with
  | Except.error e => Except.error e
  | Except.ok project =>
    Except.ok ((exportListBaseQueryset allExports).filter (fun e => e.project == project))

/-- Method `ExportDetailAPI.get_queryset` (lines 381–383):
`Export.objects.all()` restricted to the path project. -/
def exportDetailGetQueryset (userProjectPks : List Int) (pathPk : Int)
    (allExports : List ExportRec) : Except Nat (List ExportRec) :=
  match getProjectForUser userProjectPks pathPk with
  | Except.error e => Except.error e
  | Except.ok project =>
    Except.ok (allExports.filter (fun e => e.project == project))

/-- Method `ExportDownloadAPI.get_queryset` (lines 436–438), textually
identical to `ExportDetailAPI.get_queryset`. -/
def exportDownloadGetQueryset (userProjectPks : List Int) (pathPk : Int)
    (allExports : List ExportRec) : Except Nat (List ExportRec) :=
  match getProjectForUser userProjectPks pathPk with
  | Except.error e => Except.error e
  | Except.ok project =>
    Except.ok (allExports.filter (fun e => e.project == project))

/-- Lookup `self.get_object()` with `lookup_url_kwarg = 'export_pk'`: find
the pk inside the view's (project-filtered) queryset; a miss is the
framework's 404. -/
def getObjectByExportPk (qs : Except Nat (List ExportRec)) (exportPk : Int) :
    Except Nat ExportRec :=
  match qs with
  | Except.error e => Except.error e
  | Except.ok l =>
    match l.find? (fun e => e.id == exportPk) with
    | some e => Except.ok e
    | none => Except.error 404

/-- Python's `dict.pop(key)` on the validated data: the value and the
dictionary without the key (`none` = `KeyError`). -/
def popKey (d : List (Str × Str)) (key : Str) :
    Option (Str × List (Str × Str)) :=
  match d.find? (fun p => p.1 == key) with
  | none => none
  | some kv => some (kv.2, d.eraseP (fun p => p.1 == key))

/-- Result of `serializer.save(project=..., created_by=...)`: the remaining
validated fields plus the two overrides. -/
structure SavedExport where
  project : Int
  createdBy : Int
  fields : List (Str × Str)
  deriving Repr, DecidableEq

/-- Observable `instance.run_file_exporting(...)` call: its receiver and its
three keyword arguments. -/
structure RunFileExportingCall where
  receiver : SavedExport
  taskFilterOptions : Str
  annotationFilterOptions : Str
  serializationOptions : Str
  deriving Repr, DecidableEq

/-- Method `ExportListAPI.perform_create` (lines 298–311): pop the three
option entries from the validated data, resolve the path project (404 when
absent), save the record with `project` and `created_by` set, then invoke
`run_file_exporting` on it with the popped options.  A missing option key
is a `KeyError` (500). -/
def performCreate (userProjectPks : List Int) (pathPk : Int) (userPk : Int)
    (validatedData : List (Str × Str)) :
    Except Nat (SavedExport × RunFileExportingCall) :=
  match popKey validatedData "task_filter_options".data with
  | none => Except.error 500
  | some (tfo, v1) =>
    match popKey v1 "annotation_filter_options".data with
    | none => Except.error 500
    | some (afo, v2) =>
      match popKey v2 "serialization_options".data with
      | none => Except.error 500
      | some (so, v3) =>
        match getProjectForUser userProjectPks pathPk with
        | Except.error e => Except.error e
        | Except.ok project =>
          let saved : SavedExport :=
            { project := project, createdBy := userPk, fields := v3 }
          Except.ok (saved,
            { receiver := saved
              taskFilterOptions := tfo
              annotationFilterOptions := afo
              serializationOptions := so })

/-- Specification-side counterpart for the synchronous export selection,
written from the claim's words: the project's tasks, restricted to `ids[]`
when that list is nonempty and, when `download_all_tasks` does not parse as
true, to tasks having at least one annotation. -/
def exportApiTasksSpec (db : List Task) (projectPk : Int) (ps : Params) : Option (List Task) :=
  match (qgetlist ps "ids[]".data).mapM pyInt with
  | none => none
  | some idInts =>
    let base := db.filter (fun t => t.project == projectPk)
    let base2 :=
      if !(qgetlist ps "ids[]".data).isEmpty then base.filter (fun t => t.id ∈ idInts)
      else base
    some (if boolFromRequest ps "download_all_tasks".data false then base2
      else base2.filter (fun t => !t.annotations.isEmpty))

/-! ## Helper lemmas -/

theorem mem_insertSorted {le : α → α → Bool} {x a : α} {l : List α} :
    a ∈ insertSorted le x l ↔ a = x ∨ a ∈ l := by
  induction l with
  | nil => simp [insertSorted]
  | cons y ys ih =>
    by_cases h : le x y = true
    · simp [insertSorted, h]
    · simp only [insertSorted, if_neg h, List.mem_cons, ih]
      tauto

theorem mem_insertionSort {le : α → α → Bool} {a : α} {l : List α} :
    a ∈ insertionSort le l ↔ a ∈ l := by
  induction l with
  | nil => simp [insertionSort]
  | cons x xs ih =>
    simp only [insertionSort, mem_insertSorted, List.mem_cons, ih]

theorem pairwise_insertSorted {le : α → α → Bool}
    (htrans : ∀ a b c, le a b = true → le b c = true → le a c = true)
    (htot : ∀ a b, le a b = true ∨ le b a = true)
    (x : α) (l : List α) (h : l.Pairwise (fun a b => le a b = true)) :
    (insertSorted le x l).Pairwise (fun a b => le a b = true) := by
  induction l with
  | nil => simp [insertSorted]
  | cons y ys ih =>
    rw [List.pairwise_cons] at h
    by_cases hxy : le x y = true
    · rw [insertSorted, if_pos hxy]
      refine List.Pairwise.cons ?_ (List.Pairwise.cons h.1 h.2)
      intro b hb
      rcases List.mem_cons.mp hb with rfl | hb
      · exact hxy
      · exact htrans x y b hxy (h.1 b hb)
    · rw [insertSorted, if_neg hxy]
      refine List.Pairwise.cons ?_ (ih h.2)
      intro b hb
      rcases mem_insertSorted.mp hb with rfl | hb
      · rcases htot b y with hby | hyb
        · exact absurd hby hxy
        · exact hyb
      · exact h.1 b hb

theorem pairwise_insertionSort {le : α → α → Bool}
    (htrans : ∀ a b c, le a b = true → le b c = true → le a c = true)
    (htot : ∀ a b, le a b = true ∨ le b a = true)
    (l : List α) :
    (insertionSort le l).Pairwise (fun a b => le a b = true) := by
  induction l with
  | nil => simp [insertionSort]
  | cons x xs ih => exact pairwise_insertSorted htrans htot x _ ih

theorem find?_eraseP_of_disj {p q : α → Bool} (l : List α)
    (h : ∀ x, p x = true → q x = false) :
    (l.eraseP q).find? p = l.find? p := by
  induction l with
  | nil => rfl
  | cons x xs ih =>
    cases hq : q x with
    | true =>
      have hp : p x = false := by
        cases hpx : p x with
        | false => rfl
        | true => rw [h x hpx] at hq; cases hq
      simp [List.eraseP_cons, hq, List.find?_cons, hp]
    | false =>
      cases hpx : p x with
      | true => simp [List.eraseP_cons, hq, List.find?_cons, hpx]
      | false => simp [List.eraseP_cons, hq, List.find?_cons, hpx, ih]

theorem mem_filter_project {pk : Int} {l : List ExportRec} {x : ExportRec}
    (hx : x ∈ l.filter (fun e => e.project == pk)) : x.project = pk := by
  have h := (List.mem_filter.mp hx).2
  simpa using h

/-! ## Claim theorems -/

/-- C1: when the Export record's status differs from COMPLETED, the download
handler answers 404 with the plain-text body "Export is not completed" and
streams no file; a file is streamed only when the status is COMPLETED. -/
theorem exportDownload_completed_guard (inst : ExportInstance) (ps : Params) :
    (inst.status ≠ ExportStatus.completed →
      (exportDownloadGet inst ps).status = 404 ∧
      (exportDownloadGet inst ps).body = "Export is not completed".data ∧
      (exportDownloadGet inst ps).streamed = none) ∧
    (∀ s, (exportDownloadGet inst ps).streamed = some s →
      inst.status = ExportStatus.completed) := by
  constructor
  · intro h
    simp [exportDownloadGet, h, plainResp]
  · intro s hs
    by_cases h : inst.status = ExportStatus.completed
    · exact h
    · simp [exportDownloadGet, h, plainResp] at hs

theorem exportDownload_completed_guard_witness :
    (exportDownloadGet
      { status := ExportStatus.failed, file := none, convertFile := fun _ => none }
      []).status = 404 :=
  ((exportDownload_completed_guard
      { status := ExportStatus.failed, file := none, convertFile := fun _ => none }
      []).1 (by decide)).1

/-- C8: the synchronous export format is the value of `exportType` when that
parameter is present (taking precedence over `export_type`), otherwise the
value of `export_type`, otherwise "JSON". -/
theorem exportType_param_precedence (ps : Params) (v : Str) :
    (qget ps "exportType".data = some v → exportTypeFromParams ps = v) ∧
    (qget ps "exportType".data = none → qget ps "export_type".data = some v →
      exportTypeFromParams ps = v) ∧
    (qget ps "exportType".data = none → qget ps "export_type".data = none →
      exportTypeFromParams ps = "JSON".data) := by
  refine ⟨fun h => ?_, fun h1 h2 => ?_, fun h1 h2 => ?_⟩ <;>
    simp [exportTypeFromParams, qcontains, qgetD, *]

theorem exportType_param_precedence_witness :
    exportTypeFromParams [("exportType".data, "CSV".data)] = "CSV".data :=
  (exportType_param_precedence [("exportType".data, "CSV".data)] "CSV".data).1 rfl

/-- C10: when `download_resources` is absent the flag is the
`CONVERTER_DOWNLOAD_RESOURCES` setting; when present it is the parameter's
parsed boolean value, defaulting to true when the value is not parseable. -/
theorem downloadResources_param_selection (cdr : Bool) (ps : Params) (s : Str) :
    (qget ps "download_resources".data = none →
      downloadResourcesFromParams cdr ps = cdr) ∧
    (qget ps "download_resources".data = some s →
      downloadResourcesFromParams cdr ps = (parseBoolStr s).getD true) := by
  constructor <;> intro h <;>
    simp [downloadResourcesFromParams, qcontains, boolFromRequest, h]

theorem downloadResources_param_selection_witness :
    downloadResourcesFromParams true [("download_resources".data, "false".data)]
      = (parseBoolStr "false".data).getD true :=
  (downloadResources_param_selection true
    [("download_resources".data, "false".data)] "false".data).2 rfl

/-- C3 counterexample: a request whose extracted project id parses as an
integer but matches no project of the user's organization is answered with
the framework's 404 — the response status is neither 200 nor 422, so the
status is not determined by parseability alone. -/
theorem authCheck_counterexample :
    pyInt (authCheckProjectId "/export/1-x.json".data) = some 1 ∧
    (projectExportFilesAuthCheck [] "/export/1-x.json".data).status ≠ 200 ∧
    (projectExportFilesAuthCheck [] "/export/1-x.json".data).status ≠ 422 := by
  decide

/-- C3 amended: the auth-check response is 422 exactly when the extracted
project id does not parse as an integer; when it parses, the response is
200 exactly when a project with that pk belongs to the user's organization,
and the framework's 404 otherwise. -/
theorem authCheck_status_classification (orgs : List Int) (uri : Str) :
    ((projectExportFilesAuthCheck orgs uri).status = 422 ↔
      pyInt (authCheckProjectId uri) = none) ∧
    ((projectExportFilesAuthCheck orgs uri).status = 200 ↔
      ∃ pk, pyInt (authCheckProjectId uri) = some pk ∧ pk ∈ orgs) ∧
    ((projectExportFilesAuthCheck orgs uri).status = 404 ↔
      ∃ pk, pyInt (authCheckProjectId uri) = some pk ∧ pk ∉ orgs) := by
  unfold projectExportFilesAuthCheck
  cases h : pyInt (authCheckProjectId uri) with
  | none => simp [plainResp]
  | some pk =>
    by_cases hm : pk ∈ orgs <;> simp [plainResp, hm]

theorem authCheck_status_classification_witness :
    pyInt (authCheckProjectId "/export/abc.json".data) = none :=
  (authCheck_status_classification [] "/export/abc.json".data).1.mp (by decide)

/-- C4: a directory entry is listed if and only if it ends in ".json", does
not end in "-info.json" and its text before the first "-" is the decimal
representation of the project pk; each listed entry appears as the export
URL root prepended to the entry name. -/
theorem projectExportFiles_url_membership (pk : Int) (root : Str)
    (entries : List Str) (name : Str) :
    ((root ++ name) ∈ projectExportFilesUrls pk root entries ↔
      name ∈ entries ∧ exportFileQualifies pk name = true) ∧
    (∀ u ∈ projectExportFilesUrls pk root entries,
      ∃ n, n ∈ entries ∧ exportFileQualifies pk n = true ∧ u = root ++ n) := by
  constructor
  · rw [projectExportFilesUrls, List.mem_reverse, mem_insertionSort]
    constructor
    · intro hm
      obtain ⟨n, hn, heq⟩ := List.mem_map.mp hm
      have hne : n = name := List.append_cancel_left heq
      subst hne
      exact List.mem_filter.mp hn
    · intro h
      exact List.mem_map.mpr ⟨name, List.mem_filter.mpr ⟨h.1, h.2⟩, rfl⟩
  · intro u hu
    rw [projectExportFilesUrls, List.mem_reverse, mem_insertionSort] at hu
    obtain ⟨n, hn, heq⟩ := List.mem_map.mp hu
    have h := List.mem_filter.mp hn
    exact ⟨n, h.1, h.2, heq.symm⟩

theorem projectExportFiles_url_membership_witness :
    ("/export/".data ++ "7-a.json".data) ∈
      projectExportFilesUrls 7 "/export/".data ["7-a.json".data] :=
  (projectExportFiles_url_membership 7 "/export/".data
    ["7-a.json".data] "7-a.json".data).1.mpr (by decide)

/-- C5: a successful export-job creation saves a record whose project is the
path project and whose creator is the requesting user, and invokes
`run_file_exporting` on that record with exactly the three option values
found in the validated request data. -/
theorem performCreate_saves_and_runs (ups : List Int) (pathPk userPk : Int)
    (vd : List (Str × Str)) (saved : SavedExport) (call : RunFileExportingCall)
    (h : performCreate ups pathPk userPk vd = Except.ok (saved, call)) :
    saved.project = pathPk ∧ saved.createdBy = userPk ∧ call.receiver = saved ∧
    (vd.find? (fun p => p.1 == "task_filter_options".data)).map Prod.snd
      = some call.taskFilterOptions ∧
    (vd.find? (fun p => p.1 == "annotation_filter_options".data)).map Prod.snd
      = some call.annotationFilterOptions ∧
    (vd.find? (fun p => p.1 == "serialization_options".data)).map Prod.snd
      = some call.serializationOptions := by
  unfold performCreate at h
  split at h
  · cases h
  next tfo v1 hpop1 =>
  split at h
  · cases h
  next afo v2 hpop2 =>
  split at h
  · cases h
  next so v3 hpop3 =>
  split at h
  · cases h
  next project hproj =>
  -- decompose the three pops
  unfold popKey at hpop1 hpop2 hpop3
  split at hpop1
  · cases hpop1
  next kv1 hfind1 =>
  injection hpop1 with hpop1
  injection hpop1 with htfo hv1
  split at hpop2
  · cases hpop2
  next kv2 hfind2 =>
  injection hpop2 with hpop2
  injection hpop2 with hafo hv2
  split at hpop3
  · cases hpop3
  next kv3 hfind3 =>
  injection hpop3 with hpop3
  injection hpop3 with hso hv3
  -- getProjectForUser only succeeds with the path pk
  unfold getProjectForUser at hproj
  split at hproj
  case isFalse => cases hproj
  injection hproj with hproj
  subst hproj
  -- the saved record and the call
  dsimp only at h
  injection h with h
  injection h with hsaved hcall
  subst hsaved
  subst hcall
  refine ⟨rfl, rfl, rfl, ?_, ?_, ?_⟩
  · rw [hfind1]
    simp [htfo]
  · have hdisj1 : ∀ x : Str × Str, (x.1 == "annotation_filter_options".data) = true →
        (x.1 == "task_filter_options".data) = false := by
      intro x hx
      have hx1 : x.1 = "annotation_filter_options".data := by simpa using hx
      rw [hx1]; decide
    rw [← find?_eraseP_of_disj vd hdisj1, hv1, hfind2]
    simp [hafo]
  · have hdisj2 : ∀ x : Str × Str, (x.1 == "serialization_options".data) = true →
        (x.1 == "annotation_filter_options".data) = false := by
      intro x hx
      have hx1 : x.1 = "serialization_options".data := by simpa using hx
      rw [hx1]; decide
    have hdisj3 : ∀ x : Str × Str, (x.1 == "serialization_options".data) = true →
        (x.1 == "task_filter_options".data) = false := by
      intro x hx
      have hx1 : x.1 = "serialization_options".data := by simpa using hx
      rw [hx1]; decide
    rw [← find?_eraseP_of_disj vd hdisj3, hv1,
      ← find?_eraseP_of_disj v1 hdisj2, hv2, hfind3]
    simp [hso]

theorem performCreate_saves_and_runs_witness :
    ({ project := 7, createdBy := 42, fields := [("title".data, "x".data)] }
      : SavedExport).project = 7 :=
  (performCreate_saves_and_runs [7] 7 42
    [("task_filter_options".data, "T".data),
     ("annotation_filter_options".data, "A".data),
     ("serialization_options".data, "S".data),
     ("title".data, "x".data)]
    { project := 7, createdBy := 42, fields := [("title".data, "x".data)] }
    { receiver := { project := 7, createdBy := 42, fields := [("title".data, "x".data)] },
      taskFilterOptions := "T".data,
      annotationFilterOptions := "A".data,
      serializationOptions := "S".data }
    rfl).1

/-- C6: every Export record returned by the list/detail/download querysets
belongs to the path project, and looking up an export whose project differs
from the path project fails with the framework's 404. -/
theorem exportJob_project_scoping (ups : List Int) (pathPk : Int)
    (allExports : List ExportRec) (l : List ExportRec) (e : ExportRec)
    (exportPk : Int) :
    (exportListGetQueryset ups pathPk allExports = Except.ok l →
      ∀ x ∈ l, x.project = pathPk) ∧
    (exportDetailGetQueryset ups pathPk allExports = Except.ok l →
      ∀ x ∈ l, x.project = pathPk) ∧
    (exportDownloadGetQueryset ups pathPk allExports = Except.ok l →
      ∀ x ∈ l, x.project = pathPk) ∧
    (getObjectByExportPk (exportDetailGetQueryset ups pathPk allExports) exportPk
        = Except.ok e → e.project = pathPk) ∧
    (e ∈ allExports → e.id = exportPk → e.project ≠ pathPk →
      (allExports.map ExportRec.id).Nodup →
      getObjectByExportPk (exportDetailGetQueryset ups pathPk allExports) exportPk
        = Except.error 404) := by
  refine ⟨?_, ?_, ?_, ?_, ?_⟩
  · intro h x hx
    unfold exportListGetQueryset at h
    split at h
    · cases h
    next project hproj =>
      injection h with h
      subst h
      unfold getProjectForUser at hproj
      split at hproj
      case isFalse => cases hproj
      injection hproj with hproj
      subst hproj
      exact mem_filter_project hx
  · intro h x hx
    unfold exportDetailGetQueryset at h
    split at h
    · cases h
    next project hproj =>
      injection h with h
      subst h
      unfold getProjectForUser at hproj
      split at hproj
      case isFalse => cases hproj
      injection hproj with hproj
      subst hproj
      exact mem_filter_project hx
  · intro h x hx
    unfold exportDownloadGetQueryset at h
    split at h
    · cases h
    next project hproj =>
      injection h with h
      subst h
      unfold getProjectForUser at hproj
      split at hproj
      case isFalse => cases hproj
      injection hproj with hproj
      subst hproj
      exact mem_filter_project hx
  · intro h
    unfold getObjectByExportPk at h
    split at h
    · cases h
    next l' hl' =>
      split at h
      next x hfind =>
        injection h with h
        subst h
        unfold exportDetailGetQueryset at hl'
        split at hl'
        · cases hl'
        next project hproj =>
          injection hl' with hl'
          subst hl'
          unfold getProjectForUser at hproj
          split at hproj
          case isFalse => cases hproj
          injection hproj with hproj
          subst hproj
          exact mem_filter_project (List.mem_of_find?_eq_some hfind)
      next hfind => cases h
  · intro hmem hid hproj hnd
    have hnone : (allExports.filter (fun x => x.project == pathPk)).find?
        (fun x => x.id == exportPk) = none := by
      rw [List.find?_eq_none]
      intro x hx hbeq
      have hxp : x.project = pathPk := mem_filter_project hx
      have hxid : x.id = exportPk := by simpa using hbeq
      have hxall : x ∈ allExports := (List.mem_filter.mp hx).1
      have hxe : x = e :=
        List.inj_on_of_nodup_map hnd hxall hmem (by rw [hxid, hid])
      exact hproj (hxe ▸ hxp)
    by_cases hin : pathPk ∈ ups
    · simp [getObjectByExportPk, exportDetailGetQueryset, getProjectForUser, hin, hnone]
    · simp [getObjectByExportPk, exportDetailGetQueryset, getProjectForUser, hin]

theorem exportJob_project_scoping_witness :
    ∀ x ∈ [({ id := 1, project := 7, createdBy := 1, createdAt := 0, status := ExportStatus.completed } : ExportRec)], x.project = 7 :=
  (exportJob_project_scoping [7] 7
    [{ id := 1, project := 7, createdBy := 1, createdAt := 0,
        status := ExportStatus.completed }]
    [{ id := 1, project := 7, createdBy := 1, createdAt := 0,
        status := ExportStatus.completed }]
    { id := 1, project := 7, createdBy := 1, createdAt := 0,
        status := ExportStatus.completed }
    1).1 rfl

/-- C9: the export-jobs listing returns records ordered by creation time
descending (newest first). -/
theorem exportList_ordered_desc (ups : List Int) (pathPk : Int)
    (allExports : List ExportRec) (l : List ExportRec)
    (h : exportListGetQueryset ups pathPk allExports = Except.ok l) :
    l.Pairwise (fun a b => b.createdAt ≤ a.createdAt) := by
  unfold exportListGetQueryset at h
  split at h
  · cases h
  next project hproj =>
    injection h with h
    subst h
    have hs := @pairwise_insertionSort ExportRec
      (fun a b : ExportRec => decide (b.createdAt ≤ a.createdAt))
      (fun a b c hab hbc => by
        have h1 := of_decide_eq_true hab
        have h2 := of_decide_eq_true hbc
        exact decide_eq_true (Nat.le_trans h2 h1))
      (fun a b => by
        rcases Nat.le_total b.createdAt a.createdAt with hle | hle
        · exact Or.inl (decide_eq_true hle)
        · exact Or.inr (decide_eq_true hle))
      allExports
    have hp : (exportListBaseQueryset allExports).Pairwise
        (fun a b : ExportRec => b.createdAt ≤ a.createdAt) :=
      hs.imp (fun hab => of_decide_eq_true hab)
    exact hp.sublist (List.filter_sublist _)

theorem exportList_ordered_desc_witness :
    List.Pairwise (fun a b : ExportRec => b.createdAt ≤ a.createdAt)
      [{ id := 2, project := 7, createdBy := 1, createdAt := 5,
          status := ExportStatus.created },
       { id := 1, project := 7, createdBy := 1, createdAt := 1,
          status := ExportStatus.completed }] :=
  exportList_ordered_desc [7] 7
    [{ id := 1, project := 7, createdBy := 1, createdAt := 1,
        status := ExportStatus.completed },
     { id := 2, project := 7, createdBy := 1, createdAt := 5,
        status := ExportStatus.created }]
    [{ id := 2, project := 7, createdBy := 1, createdAt := 5,
        status := ExportStatus.created },
     { id := 1, project := 7, createdBy := 1, createdAt := 1,
        status := ExportStatus.completed }]
    rfl

/-- C7: a successful synchronous export responds with the generator's
content type, a Content-Disposition header naming the generated filename in
an attachment disposition, and a filename header carrying that filename. -/
theorem exportApi_response_shape (db : List Task) (pk : Int) (cdr : Bool)
    (gen : List Task → Str → Bool → FileGenResult) (ps : Params)
    (tasks : List Task)
    (h : exportApiTasks db pk ps = some tasks) :
    ∃ resp, exportApiGet db pk cdr gen ps = some resp ∧
      resp.contentType = some (gen tasks (exportTypeFromParams ps)
        (downloadResourcesFromParams cdr ps)).contentType ∧
      ("Content-Disposition".data,
        "attachment; filename=\"".data
          ++ (gen tasks (exportTypeFromParams ps)
                (downloadResourcesFromParams cdr ps)).filename
          ++ "\"".data) ∈ resp.headers ∧
      ("filename".data,
        (gen tasks (exportTypeFromParams ps)
          (downloadResourcesFromParams cdr ps)).filename) ∈ resp.headers ∧
      resp.streamed = some (gen tasks (exportTypeFromParams ps)
        (downloadResourcesFromParams cdr ps)).stream := by
  have hresp : exportApiGet db pk cdr gen ps = some
      { status := 200
        body := []
        contentType := some (gen tasks (exportTypeFromParams ps)
          (downloadResourcesFromParams cdr ps)).contentType
        headers := [("Content-Disposition".data,
            "attachment; filename=\"".data
              ++ (gen tasks (exportTypeFromParams ps)
                    (downloadResourcesFromParams cdr ps)).filename
              ++ "\"".data),
          ("filename".data,
            (gen tasks (exportTypeFromParams ps)
              (downloadResourcesFromParams cdr ps)).filename)]
        streamed := some (gen tasks (exportTypeFromParams ps)
          (downloadResourcesFromParams cdr ps)).stream } := by
    unfold exportApiGet
    rw [h]
  exact ⟨_, hresp, rfl, List.mem_cons_self _ _,
    List.mem_cons.mpr (Or.inr (List.mem_cons_self _ _)), rfl⟩

theorem exportApi_response_shape_witness :
    ∃ resp, exportApiGet [] 0 true
        (fun _ _ _ =>
          { stream := "S".data, contentType := "ct".data, filename := "f".data }) []
        = some resp ∧
      resp.contentType = some "ct".data ∧
      ("Content-Disposition".data,
        "attachment; filename=\"".data ++ "f".data ++ "\"".data) ∈ resp.headers ∧
      ("filename".data, "f".data) ∈ resp.headers ∧
      resp.streamed = some "S".data :=
  exportApi_response_shape [] 0 true _ [] [] rfl

/-! ## Lemmas for the synchronous export selection (C2) -/

theorem batchAux_length_le {n : Nat} :
    ∀ (fuel : Nat) (l : List α) (c : List α), c ∈ batchAux n fuel l → c.length ≤ n := by
  intro fuel
  induction fuel with
  | zero =>
    intro l c hc
    simp [batchAux] at hc
  | succ fuel ih =>
    intro l c hc
    cases l with
    | nil => simp [batchAux] at hc
    | cons x xs =>
      simp only [batchAux] at hc
      rcases List.mem_cons.mp hc with rfl | hc
      · exact List.length_take_le n _
      · exact ih _ _ hc

theorem batch_length_le (l : List α) (n : Nat) :
    ∀ c ∈ batch l n, c.length ≤ n := by
  intro c hc
  unfold batch at hc
  split at hc
  · simp at hc
  · exact batchAux_length_le _ _ _ hc

theorem filter_take_segment (pre suf : List Task) (n : Nat)
    (hnd : ((pre ++ suf).map Task.id).Nodup) :
    (pre ++ suf).filter (fun t => t.id ∈ (suf.map Task.id).take n) = suf.take n := by
  rw [List.map_append, List.nodup_append] at hnd
  obtain ⟨hpre, hsuf, hdisj⟩ := hnd
  rw [List.filter_append]
  have h1 : pre.filter (fun t => t.id ∈ (suf.map Task.id).take n) = [] := by
    rw [List.filter_eq_nil_iff]
    intro t ht
    simp only [decide_eq_true_eq]
    intro hmem
    exact hdisj (List.mem_map_of_mem _ ht) (List.take_subset _ _ hmem)
  have h2 : suf.filter (fun t => t.id ∈ (suf.map Task.id).take n) = suf.take n := by
    have hsd : suf.filter (fun t => t.id ∈ (suf.map Task.id).take n)
        = (suf.take n ++ suf.drop n).filter (fun t => t.id ∈ (suf.map Task.id).take n) := by
      rw [List.take_append_drop]
    rw [hsd, List.filter_append]
    have h2a : (suf.take n).filter (fun t => t.id ∈ (suf.map Task.id).take n)
        = suf.take n := by
      rw [List.filter_eq_self]
      intro t ht
      simp only [decide_eq_true_eq]
      rw [← List.map_take]
      exact List.mem_map_of_mem _ ht
    have h2b : (suf.drop n).filter (fun t => t.id ∈ (suf.map Task.id).take n) = [] := by
      rw [List.filter_eq_nil_iff]
      intro t ht
      simp only [decide_eq_true_eq]
      intro hmem
      have hnd2 : ((suf.map Task.id).take n ++ (suf.map Task.id).drop n).Nodup := by
        rw [List.take_append_drop]
        exact hsuf
      rw [List.nodup_append] at hnd2
      refine hnd2.2.2 hmem ?_
      rw [← List.map_drop]
      exact List.mem_map_of_mem _ ht
    rw [h2a, h2b, List.append_nil]
  rw [h1, h2, List.nil_append]

theorem batchAux_filter_append {n : Nat} (hn : 0 < n) :
    ∀ (fuel : Nat) (pre suf : List Task), suf.length ≤ fuel →
      ((pre ++ suf).map Task.id).Nodup →
      (batchAux n fuel (suf.map Task.id)).flatMap
        (fun chunk => (pre ++ suf).filter (fun t => t.id ∈ chunk)) = suf := by
  intro fuel
  induction fuel with
  | zero =>
    intro pre suf hlen hnd
    have hsuf : suf = [] := List.eq_nil_of_length_eq_zero (Nat.le_zero.mp hlen)
    subst hsuf
    simp [batchAux]
  | succ fuel ih =>
    intro pre suf hlen hnd
    cases suf with
    | nil => simp [batchAux]
    | cons x xs =>
      rw [List.map_cons]
      simp only [batchAux, List.flatMap_cons]
      simp only [← List.map_cons, ← List.map_drop]
      rw [filter_take_segment pre (x :: xs) n hnd]
      have hsplit : pre ++ x :: xs = (pre ++ (x :: xs).take n) ++ (x :: xs).drop n := by
        rw [List.append_assoc, List.take_append_drop]
      simp only [hsplit]
      rw [ih (pre ++ (x :: xs).take n) ((x :: xs).drop n) ?hlen2 ?hnd2]
      · exact List.take_append_drop n (x :: xs)
      case hlen2 =>
        rw [List.length_drop]
        simp only [List.length_cons] at hlen ⊢
        omega
      case hnd2 =>
        rw [← hsplit]
        exact hnd

theorem flatMap_batch_filter (q : List Task) (n : Nat) (hn : 0 < n)
    (hq : (q.map Task.id).Nodup) :
    (batch (q.map Task.id) n).flatMap (fun chunk => q.filter (fun t => t.id ∈ chunk))
      = q := by
  unfold batch
  rw [if_neg (Nat.pos_iff_ne_zero.mp hn)]
  have h := batchAux_filter_append hn (q.map Task.id).length [] q ?hl ?hn2
  case hl => rw [List.length_map]
  case hn2 => simpa using hq
  simpa using h

theorem distinctByIdAux_fuel_irrel :
    ∀ (f1 f2 : Nat) (l : List Task), l.length ≤ f1 → l.length ≤ f2 →
      distinctByIdAux f1 l = distinctByIdAux f2 l := by
  intro f1
  induction f1 with
  | zero =>
    intro f2 l h1 h2
    have hl : l = [] := List.eq_nil_of_length_eq_zero (Nat.le_zero.mp h1)
    subst hl
    cases f2 <;> rfl
  | succ f ih =>
    intro f2 l h1 h2
    cases l with
    | nil => cases f2 <;> rfl
    | cons t ts =>
      cases f2 with
      | zero =>
        simp only [List.length_cons] at h2
        omega
      | succ g =>
        simp only [distinctByIdAux]
        simp only [List.length_cons] at h1 h2
        congr 1
        exact ih g _ (Nat.le_trans (List.length_filter_le _ _) (by omega))
          (Nat.le_trans (List.length_filter_le _ _) (by omega))

theorem distinctById_cons (t : Task) (ts : List Task) :
    distinctById (t :: ts) = t :: distinctById (ts.filter (fun u => u.id ≠ t.id)) := by
  unfold distinctById
  simp only [List.length_cons, distinctByIdAux]
  congr 1
  exact distinctByIdAux_fuel_irrel ts.length (ts.filter (fun u => u.id ≠ t.id)).length
    (ts.filter (fun u => u.id ≠ t.id)) (List.length_filter_le _ _) (Nat.le_refl _)

theorem mem_of_mem_annotJoin {u : Task} {ts : List Task}
    (h : u ∈ ts.flatMap (fun t => t.annotations.map (fun _ => t))) : u ∈ ts := by
  obtain ⟨v, hv, hu⟩ := List.mem_flatMap.mp h
  obtain ⟨_, _, rfl⟩ := List.mem_map.mp hu
  exact hv

theorem annotationsNotNullDistinct_eq_filter :
    ∀ (q : List Task), (q.map Task.id).Nodup →
      annotationsNotNullDistinct q = q.filter (fun t => !t.annotations.isEmpty) := by
  intro q
  induction q with
  | nil => intro _; rfl
  | cons t ts ih =>
    intro hnd
    rw [List.map_cons, List.nodup_cons] at hnd
    unfold annotationsNotNullDistinct
    rw [List.flatMap_cons]
    cases hann : t.annotations with
    | nil =>
      simp only [List.map_nil, List.nil_append]
      rw [List.filter_cons_of_neg (by simp [hann])]
      exact ih hnd.2
    | cons a as =>
      rw [List.map_cons, List.cons_append, distinctById_cons, List.filter_append]
      have h1 : (as.map (fun _ => t)).filter (fun u => u.id ≠ t.id) = [] := by
        rw [List.filter_eq_nil_iff]
        intro u hu
        obtain ⟨_, _, rfl⟩ := List.mem_map.mp hu
        simp
      have h2 : (ts.flatMap (fun t => t.annotations.map (fun _ => t))).filter
          (fun u => u.id ≠ t.id)
          = ts.flatMap (fun t => t.annotations.map (fun _ => t)) := by
        rw [List.filter_eq_self]
        intro u hu
        have hmem := mem_of_mem_annotJoin hu
        have hne : u.id ≠ t.id := by
          intro he
          exact hnd.1 (he ▸ List.mem_map_of_mem Task.id hmem)
        simpa using hne
      rw [h1, h2, List.nil_append]
      rw [List.filter_cons_of_pos (by simp [hann])]
      exact congrArg (List.cons t) (ih hnd.2)

theorem nodup_map_id_filter (p : Task → Bool) (l : List Task)
    (h : (l.map Task.id).Nodup) : ((l.filter p).map Task.id).Nodup :=
  List.Nodup.sublist ((List.filter_sublist l).map Task.id) h

/-- C2: assuming distinct task ids, the synchronous export serializes
exactly the project's tasks, restricted to `ids[]` when nonempty and, when
`download_all_tasks` does not parse as true, to tasks with at least one
annotation (deduplicated); the id list is serialized in batches of size at
most 1000. -/
theorem exportApiTasks_spec_correct (db : List Task) (pk : Int) (ps : Params)
    (hnd : (db.map Task.id).Nodup) :
    exportApiTasks db pk ps = exportApiTasksSpec db pk ps ∧
    ∀ (l : List Int), ∀ c ∈ batch l 1000, c.length ≤ 1000 := by
  constructor
  · simp only [exportApiTasks, exportApiTasksSpec]
    cases hm : (qgetlist ps "ids[]".data).mapM pyInt with
    | none => rfl
    | some idInts =>
      refine congrArg some ?_
      have hnd1 : ((if !(qgetlist ps "ids[]".data).isEmpty
          then (db.filter (fun t => t.project == pk)).filter (fun t => t.id ∈ idInts)
          else db.filter (fun t => t.project == pk)).map Task.id).Nodup := by
        split
        · exact nodup_map_id_filter _ _ (nodup_map_id_filter _ _ hnd)
        · exact nodup_map_id_filter _ _ hnd
      cases hb : boolFromRequest ps "download_all_tasks".data false with
      | true =>
        simp only [Bool.not_true, Bool.not_false, Bool.false_eq_true, eq_self_iff_true,
          if_false, if_true]
        exact flatMap_batch_filter _ 1000 (by omega) hnd1
      | false =>
        simp only [Bool.not_true, Bool.not_false, Bool.false_eq_true, eq_self_iff_true,
          if_false, if_true]
        have hq2 : ((annotationsNotNullDistinct (if !(qgetlist ps "ids[]".data).isEmpty
            then (db.filter (fun t => t.project == pk)).filter (fun t => t.id ∈ idInts)
            else db.filter (fun t => t.project == pk))).map Task.id).Nodup := by
          rw [annotationsNotNullDistinct_eq_filter _ hnd1]
          exact nodup_map_id_filter _ _ hnd1
        exact (flatMap_batch_filter _ 1000 (by omega) hq2).trans
          (annotationsNotNullDistinct_eq_filter _ hnd1)
  · intro l c hc
    exact batch_length_le l 1000 c hc

theorem exportApiTasks_spec_correct_witness :
    exportApiTasks
      [{ id := 1, project := 7, annotations := [10] },
       { id := 2, project := 7, annotations := [] }] 7 []
      = exportApiTasksSpec
      [{ id := 1, project := 7, annotations := [10] },
       { id := 2, project := 7, annotations := [] }] 7 [] :=
  (exportApiTasks_spec_correct
    [{ id := 1, project := 7, annotations := [10] },
     { id := 2, project := 7, annotations := [] }] 7 [] (by decide)).1

end LabelStudio.DataExport
